import Mathlib

/-!
Verification of the Markenz determinism-audit tools
(`src/tools/audits/determinism_audit.py`, `src/tools/audits/replay_audit.py`).

Python strings and byte strings are modelled uniformly as `Str := List Nat`
(the sequence of byte values; all concrete strings used here are ASCII, for
which UTF-8 encoding is the identity on code points).  `hashlib.sha256` is
implemented executably below and validated against the standard test vectors.
-/

set_option maxRecDepth 100000

/-- A Python `str`/`bytes` value, as its sequence of byte values. -/
abbrev Str : Type := List Nat

/-- Encode an ASCII Lean string literal as a `Str` (UTF-8 code points). -/
def strBytes (s : String) : Str := s.data.map Char.toNat

/-- Decimal digits of `n` (fuel-driven so that it reduces in the kernel);
`natDecAux (n+1) n` equals the ASCII encoding of Python `str(n)`. -/
def natDecAux : Nat → Nat → Str
  | 0, _ => []
  | f + 1, n => if n < 10 then [48 + n] else natDecAux f (n / 10) ++ [48 + n % 10]

/-- ASCII encoding of Python `str(n)` / `f"{n}"` for a nonnegative int `n`. -/
def natDec (n : Nat) : Str := natDecAux (n + 1) n

namespace Sha256

/-- 2^32, the word modulus. -/
def w32 : Nat := 4294967296

/-- Right-rotation of a 32-bit word. -/
def rotr (n x : Nat) : Nat := (x >>> n) ||| ((x <<< (32 - n)) % w32)

def smallSigma0 (x : Nat) : Nat := rotr 7 x ^^^ rotr 18 x ^^^ (x >>> 3)
def smallSigma1 (x : Nat) : Nat := rotr 17 x ^^^ rotr 19 x ^^^ (x >>> 10)
def bigSigma0 (x : Nat) : Nat := rotr 2 x ^^^ rotr 13 x ^^^ rotr 22 x
def bigSigma1 (x : Nat) : Nat := rotr 6 x ^^^ rotr 11 x ^^^ rotr 25 x

/-- The 64 round constants (fractional parts of cube roots of the first 64
primes). -/
def K : List Nat :=
  [1116352408, 1899447441, 3049323471, 3921009573, 961987163, 1508970993, 2453635748, 2870763221,
   3624381080, 310598401, 607225278, 1426881987, 1925078388, 2162078206, 2614888103, 3248222580,
   3835390401, 4022224774, 264347078, 604807628, 770255983, 1249150122, 1555081692, 1996064986,
   2554220882, 2821834349, 2952996808, 3210313671, 3336571891, 3584528711, 113926993, 338241895,
   666307205, 773529912, 1294757372, 1396182291, 1695183700, 1986661051, 2177026350, 2456956037,
   2730485921, 2820302411, 3259730800, 3345764771, 3516065817, 3600352804, 4094571909, 275423344,
   430227734, 506948616, 659060556, 883997877, 958139571, 1322822218, 1537002063, 1747873779,
   1955562222, 2024104815, 2227730452, 2361852424, 2428436474, 2756734187, 3204031479, 3329325298]

/-- The initial hash value (fractional parts of square roots of the first 8
primes). -/
def H0 : List Nat :=
  [1779033703, 3144134277, 1013904242, 2773480762, 1359893119, 2600822924, 528734635, 1541459225]

/-- Big-endian bytes (most significant first) of a number, `k` bytes wide. -/
def beBytes : Nat → Nat → List Nat
  | 0, _ => []
  | k + 1, n => beBytes k (n / 256) ++ [n % 256]

/-- SHA-256 padding: append `0x80`, zeros to 56 mod 64, then the 64-bit
big-endian bit length. -/
def pad (msg : List Nat) : List Nat :=
  let l := msg.length
  let pad0 := (56 + 64 - ((l + 1) % 64)) % 64
  msg ++ [128] ++ List.replicate pad0 0 ++ beBytes 8 (8 * l)

/-- Convert 4 consecutive bytes (big-endian) into a word, reading at offset
`4*i` of the block. -/
def wordAt (block : List Nat) (i : Nat) : Nat :=
  block.getD (4 * i) 0 * 16777216 + block.getD (4 * i + 1) 0 * 65536 +
    block.getD (4 * i + 2) 0 * 256 + block.getD (4 * i + 3) 0

/-- Extend a 16-word message schedule to 64 words. -/
def extendSchedule : Nat → List Nat → List Nat
  | 0, ws => ws
  | n + 1, ws =>
      let i := ws.length
      extendSchedule n
        (ws ++ [(smallSigma1 (ws.getD (i - 2) 0) + ws.getD (i - 7) 0 +
                 smallSigma0 (ws.getD (i - 15) 0) + ws.getD (i - 16) 0) % w32])

/-- One round of the compression function on the 8-word working state. -/
def round (k w : Nat) : List Nat → List Nat
  | [a, b, c, d, e, f, g, h] =>
      let ch := (e &&& f) ^^^ ((e ^^^ 4294967295) &&& g)
      let maj := (a &&& b) ^^^ (a &&& c) ^^^ (b &&& c)
      let t1 := (h + bigSigma1 e + ch + k + w) % w32
      let t2 := (bigSigma0 a + maj) % w32
      [(t1 + t2) % w32, a, b, c, (d + t1) % w32, e, f, g]
  | s => s

/-- Run the 64 rounds over the paired `(k, w)` lists. -/
def rounds : List Nat → List Nat → List Nat → List Nat
  | [], _, s => s
  | _, [], s => s
  | k :: ks, w :: ws, s => rounds ks ws (round k w s)

/-- Compress one 64-byte block into the 8-word hash value. -/
def compress (hv block : List Nat) : List Nat :=
  let ws := extendSchedule 48 ((List.range 16).map (wordAt block))
  let s := rounds K ws hv
  (hv.zip s).map (fun p => (p.1 + p.2) % w32)

/-- Split into 64-byte blocks (fuel-driven structural recursion; fuel
`l.length + 1` always suffices). -/
def toBlocksAux : Nat → List Nat → List (List Nat)
  | 0, _ => []
  | _ + 1, [] => []
  | fuel + 1, l => l.take 64 :: toBlocksAux fuel (l.drop 64)

def toBlocks (l : List Nat) : List (List Nat) := toBlocksAux (l.length + 1) l

end Sha256

/-- `hashlib.sha256(msg).digest()`: the 32-byte SHA-256 digest of a byte
sequence. -/
def sha256 (msg : Str) : Str :=
  let hv := (Sha256.toBlocks (Sha256.pad msg)).foldl Sha256.compress Sha256.H0
  hv.flatMap (Sha256.beBytes 4)

/-- Lowercase hex digit for a value below 16. -/
def hexDigit (n : Nat) : Nat := if n < 10 then 48 + n else 87 + n

/-- `bytes.hex()`: lowercase hex encoding of a byte sequence. -/
def hexStr (bs : Str) : Str := bs.flatMap (fun b => [hexDigit (b / 16), hexDigit (b % 16)])

/-- Standard test vector: SHA-256 of the empty message. -/
example : hexStr (sha256 []) =
    strBytes "e3b0c44298fc1c149afbf4c8996fb92427ae41e4649b934ca495991b7852b855" := by decide

/-- Standard test vector: SHA-256 of `"abc"`. -/
example : hexStr (sha256 (strBytes "abc")) =
    strBytes "ba7816bf8f01cfea414140de5dae2223b00361a396177a9cb410ff61f20015ad" := by decide

/-- Python `repr` of a `bytes` object (what an f-string interpolation of a
`bytes` value produces), as its ASCII byte sequence.  CPython uses single
quotes unless the bytes contain `'` but no `"`; backslash and the quote
character are backslash-escaped, tab/newline/carriage-return become
`\t`/`\n`/`\r`, other bytes outside `0x20..0x7e` become `\xhh`. -/
def pyRepr (bs : Str) : Str :=
  let quote := if bs.contains 39 && !(bs.contains 34) then 34 else 39
  [98, quote] ++
    (bs.flatMap fun c =>
      if c = 92 then [92, 92]
      else if c = quote then [92, quote]
      else if c = 9 then [92, 116]
      else if c = 10 then [92, 110]
      else if c = 13 then [92, 114]
      else if 32 ≤ c ∧ c ≤ 126 then [c]
      else [92, 120, hexDigit (c / 16), hexDigit (c % 16)]) ++ [quote]

/-- An input event record `(tick, event_type, payload)` as consumed by
`DeterminismAuditor.replay_deterministically` (the `created_at` column is
never read by the core). -/
structure Event where
  tick : Nat
  eventType : Str
  payload : Str
deriving DecidableEq

namespace DeterminismAuditor

/-- The f-string prefix `f"{event['tick']}{event['event_type']}{event['payload']}"`
of the per-event hash input. -/
def serialized (e : Event) : Str := natDec e.tick ++ e.eventType ++ e.payload

/-- The loop body of `replay_deterministically`: each event is hashed
together with the current RNG state (`f"...{universe_state['rng_state']}"`
interpolates the 32 digest bytes through `repr`), the digest is emitted as
`(tick, event_hash.hex())`, and the RNG state advances by
`sha256(rng_state + b'tick')`. -/
def replayGo (rngState : Str) : List Event → List (Nat × Str)
  | [] => []
  | e :: rest =>
      (e.tick, hexStr (sha256 (serialized e ++ pyRepr rngState))) ::
        replayGo (sha256 (rngState ++ strBytes "tick")) rest

/-- `DeterminismAuditor.replay_deterministically`: the initial RNG state is
`sha256(f"{seed}".encode()).digest()`; the events are folded in the order
given. -/
def replayDeterministically (seed : Nat) (events : List Event) : List (Nat × Str) :=
  replayGo (sha256 (natDec seed)) events

/-- The auxiliary RNG state before processing the event at (0-based) index
`i`: `rngAt seed 0 = sha256(str(seed))`, and each processed event advances it
by `sha256(rng ++ "tick")`. -/
def rngAt (seed : Nat) : Nat → Str
  | 0 => sha256 (natDec seed)
  | i + 1 => sha256 (rngAt seed i ++ strBytes "tick")

/-- Closed-form trajectory: the entry for the event at index `k` is its
serialization hashed together with `rngAt seed k`. -/
def trajFrom (seed : Nat) : Nat → List Event → List (Nat × Str)
  | _, [] => []
  | k, e :: rest =>
      (e.tick, hexStr (sha256 (serialized e ++ pyRepr (rngAt seed k)))) ::
        trajFrom seed (k + 1) rest

/-- The recurrence claimed by the specification (claim C1): the fourth
concatenated component of each event's hash input is the digest emitted for
the *previous* event (`sha256(str(seed))` for the first event), chained in
place of the RNG state. -/
def specGo (state : Str) : List Event → List (Nat × Str)
  | [] => []
  | e :: rest =>
      let d := sha256 (serialized e ++ pyRepr state)
      (e.tick, hexStr d) :: specGo d rest

/-- The whole-trajectory form of the specification's claimed recurrence. -/
def specTrajectory (seed : Nat) (events : List Event) : List (Nat × Str) :=
  specGo (sha256 (natDec seed)) events

/-- Ground truth pin: the modelled builder reproduces the digests computed by
CPython's `hashlib.sha256` on seed `0` and events
`[(0, 'a', 'b'), (1, 'a', 'b')]`. -/
example : replayDeterministically 0
    [⟨0, strBytes "a", strBytes "b"⟩, ⟨1, strBytes "a", strBytes "b"⟩] =
    [(0, strBytes "34adec180d91619e0e3ba808ff9a3632292b564dd7750c41ab2b0b8fac457be3"),
     (1, strBytes "c4fe74f31290429b8732e71a1c5abd866174d879cac1b468e76b9a4d5ccc5ffc")] := by
  decide

end DeterminismAuditor

namespace DeterminismAuditor

/-- `replay_hash_dict = {tick: hash_hex for tick, hash_hex in replay_hashes}`
followed by `replay_hash_dict[tick]`: a Python dict comprehension keeps the
*last* value written for a key, which this left fold reproduces. -/
def lookupLast (replayHashes : List (Nat × Str)) (t : Nat) : Option Str :=
  replayHashes.foldl (fun acc p => if p.1 = t then some p.2 else acc) none

/-- The two divergence kinds appended by
`DeterminismAuditor.verify_hash_chain`: `'hash_mismatch'` (the spec's
`HASH_MISMATCH`) and `'missing_hash'` (the spec's `MISSING_TICK`). -/
inductive DivKind
  | hashMismatch
  | missingHash
deriving DecidableEq

/-- A divergence record `{tick, db_hash, replay_hash, type}`: `dbHash` is the
spec's `expected_hash`, `replayHash` the spec's `actual_hash` (`None` for a
missing tick). -/
structure Divergence where
  tick : Nat
  dbHash : Str
  replayHash : Option Str
  kind : DivKind
deriving DecidableEq

/-- The divergence-collection loop of `DeterminismAuditor.verify_hash_chain`:
for each checkpoint `(tick, world_hash.hex())` in order, emit a mismatch
record if the replay dict holds a different hash for its tick, a missing-hash
record if the tick is absent, and nothing otherwise. -/
def divergencesOf : List (Nat × Str) → List (Nat × Str) → List Divergence
  | [], _ => []
  | c :: rest, replayHashes =>
      (match lookupLast replayHashes c.1 with
       | some rh => if c.2 ≠ rh then [⟨c.1, c.2, some rh, .hashMismatch⟩] else []
       | none => [⟨c.1, c.2, none, .missingHash⟩]) ++ divergencesOf rest replayHashes

/-- `DeterminismAuditor.verify_hash_chain` returns `(False, divergences)` when
any divergence was collected and `(True, [])` otherwise. -/
def verifyHashChain (checkpoints replayHashes : List (Nat × Str)) : Bool × List Divergence :=
  if (divergencesOf checkpoints replayHashes).isEmpty then (true, [])
  else (false, divergencesOf checkpoints replayHashes)

/-- `generate_report`: `'PASS' if verification_result else 'FAIL'`. -/
def statusOf (verificationResult : Bool) : Str :=
  if verificationResult then strBytes "PASS" else strBytes "FAIL"

/-- `generate_report`: `divergences[0]['tick'] if divergences else None`. -/
def firstDivergenceTick (divergences : List Divergence) : Option Nat :=
  divergences.head?.map (·.tick)

end DeterminismAuditor

/-- An event record of `replay_audit.py`'s hash-chain walk: the fields
`tick`, `hash` and `prev_hash` read by `ReplayAudit.verify_hash_chain`
(missing keys default to the empty string via `.get`). -/
structure ChainRecord where
  tick : Nat
  hash : Str
  prevHash : Str
deriving DecidableEq

namespace ReplayAudit

/-- The scan loop of `ReplayAudit.verify_hash_chain`: a record whose
`prev_hash` is non-empty (Python truthiness) and different from the running
`prev_hash` breaks the chain at its tick (the code prints the tick and
returns `False`, which we model as `(false, some tick)`); otherwise the
running hash becomes this record's `hash`. -/
def verifyChainGo (expected : Str) : List ChainRecord → Bool × Option Nat
  | [] => (true, none)
  | c :: rest =>
      if c.prevHash ≠ [] ∧ c.prevHash ≠ expected then (false, some c.tick)
      else verifyChainGo c.hash rest

/-- `ReplayAudit.verify_hash_chain`, starting from the genesis sentinel
`"0" * 64`. -/
def verifyHashChain (records : List ChainRecord) : Bool × Option Nat :=
  verifyChainGo (List.replicate 64 48) records

/-- Build a well-linked checkpoint sequence from `(tick, hash)` pairs:
genesis gets the empty `prev_hash`, every later record gets the previous
record's hash. -/
def mkChainGo (prev : Str) : List (Nat × Str) → List ChainRecord
  | [] => []
  | (t, h) :: rest => ⟨t, h, prev⟩ :: mkChainGo h rest

/-- `mkChain ps` is the chain with `prev_hash[i] = hash[i-1]` for `i > 0` and
an empty genesis `prev_hash`. -/
def mkChain (ps : List (Nat × Str)) : List ChainRecord := mkChainGo [] ps

/-- Replace the `prev_hash` of the record at index `i` by `v` (the single-
checkpoint mutation of the chain-verifier claim). -/
def setPrev : List ChainRecord → Nat → Str → List ChainRecord
  | [], _, _ => []
  | c :: rest, 0, v => { c with prevHash := v } :: rest
  | c :: rest, i + 1, v => c :: setPrev rest i v

/-- `ReplayAudit.simulate_universe_state`: the hash at a tick is the SHA-256
hex digest of `f"{seed}:{tick}:{len([e for e in events if e['tick'] <= tick])}"`
(58 is the ASCII colon). -/
def simulateUniverseState (seed : Nat) (eventTicks : List Nat) (tick : Nat) : Str :=
  hexStr (sha256 (natDec seed ++ [58] ++ natDec tick ++ [58] ++
    natDec (eventTicks.countP (fun t => t ≤ tick))))

/-- One run of the double loop in `ReplayAudit.verify_hash_stability`: ticks
`0..100`; the `run` index is carried but never used by the loop body. -/
def stabilityRun (seed : Nat) (eventTicks : List Nat) (_run : Nat) : List Str :=
  (List.range 101).map (simulateUniverseState seed eventTicks)

/-- The comparison loop of `verify_hash_stability`: the index of the first
position where the two trajectories disagree. -/
def firstDiff : Nat → List Str → List Str → Option Nat
  | _, [], _ => none
  | _, _, [] => none
  | i, a :: as, b :: bs => if a ≠ b then some i else firstDiff (i + 1) as bs

/-- `ReplayAudit.verify_hash_stability`: run the replay twice and report the
first divergence index (`(True, None)` when the zipped trajectories agree). -/
def verifyHashStability (seed : Nat) (eventTicks : List Nat) : Bool × Option Nat :=
  match firstDiff 0 (stabilityRun seed eventTicks 0) (stabilityRun seed eventTicks 1) with
  | none => (true, none)
  | some i => (false, some i)

end ReplayAudit

namespace ReplayAudit

/-- A chain whose every record's `prev_hash` equals the hash the scan expects
at that point verifies cleanly. -/
lemma verifyChainGo_mkChainGo (ps : List (Nat × Str)) :
    ∀ e : Str, verifyChainGo e (mkChainGo e ps) = (true, none) := by
  induction ps with
  | nil => intro e; rfl
  | cons p rest ih =>
      intro e
      obtain ⟨t, h⟩ := p
      simp only [mkChainGo, verifyChainGo]
      rw [if_neg (by rintro ⟨-, hne⟩; exact hne rfl)]
      exact ih h

/-- A well-linked chain (empty genesis `prev_hash`, each later `prev_hash`
equal to the preceding hash) verifies with `ok = true` and no break tick. -/
lemma verifyHashChain_mkChain (ps : List (Nat × Str)) :
    verifyHashChain (mkChain ps) = (true, none) := by
  cases ps with
  | nil => rfl
  | cons p rest =>
      obtain ⟨t, h⟩ := p
      simp only [verifyHashChain, mkChain, mkChainGo, verifyChainGo]
      rw [if_neg (by rintro ⟨hne, -⟩; exact hne rfl)]
      exact verifyChainGo_mkChainGo rest h

/-- Mutating the `prev_hash` at index `j+1` of a well-linked segment to a
non-empty value different from the preceding hash makes the scan stop there
with that record's tick. -/
lemma verifyChainGo_setPrev (j : Nat) :
    ∀ (ps : List (Nat × Str)) (e v : Str) (t0 t1 : Nat) (h0 h1 : Str),
      ps.get? j = some (t0, h0) → ps.get? (j + 1) = some (t1, h1) →
      v ≠ [] → v ≠ h0 →
      verifyChainGo e (setPrev (mkChainGo e ps) (j + 1) v) = (false, some t1) := by
  induction j with
  | zero =>
      intro ps e v t0 t1 h0 h1 hg0 hg1 hv hne
      match ps, hg0, hg1 with
      | (ta, ha) :: (tb, hb) :: rest, hg0, hg1 =>
          simp only [List.get?] at hg0 hg1
          injection hg0 with hg0; injection hg1 with hg1
          obtain ⟨rfl, rfl⟩ := Prod.mk.injEq .. ▸ And.intro (congrArg Prod.fst hg0) (congrArg Prod.snd hg0)
          obtain ⟨rfl, rfl⟩ := Prod.mk.injEq .. ▸ And.intro (congrArg Prod.fst hg1) (congrArg Prod.snd hg1)
          simp only [mkChainGo, setPrev, verifyChainGo]
          rw [if_neg (by rintro ⟨-, hx⟩; exact hx rfl)]
          rw [if_pos ⟨hv, hne⟩]
  | succ j ih =>
      intro ps e v t0 t1 h0 h1 hg0 hg1 hv hne
      match ps with
      | (ta, ha) :: ps' =>
          simp only [List.get?] at hg0 hg1
          simp only [mkChainGo, setPrev, verifyChainGo]
          rw [if_neg (by rintro ⟨-, hx⟩; exact hx rfl)]
          exact ih ps' ha v t0 t1 h0 h1 hg0 hg1 hv hne

/-- Both runs of `verify_hash_stability` compare a trajectory with itself, so
the first-difference scan finds nothing. -/
lemma firstDiff_self (l : List Str) : ∀ i, firstDiff i l l = none := by
  induction l with
  | nil => intro i; rfl
  | cons a rest ih =>
      intro i
      simp only [firstDiff]
      rw [if_neg (fun h => h rfl)]
      exact ih (i + 1)

end ReplayAudit

/-- Claim C3 (corrected).  A checkpoint sequence built with
`prev_hash[i] = hash[i-1]` (empty genesis `prev_hash`) verifies with
`ok = true`; mutating a single non-genesis `prev_hash` to any **non-empty**
value different from the preceding hash makes `verify_hash_chain` return
`ok = false` with the break reported at exactly that checkpoint's tick (the
scan stops at the first break).  The claim's unrestricted "arbitrary value"
fails: mutating to the empty string passes, see `C3_counterexample`. -/
theorem C3_chain_verifier (ps : List (Nat × Str)) :
    ReplayAudit.verifyHashChain (ReplayAudit.mkChain ps) = (true, none) ∧
    ∀ (j : Nat) (v : Str) (t0 t1 : Nat) (h0 h1 : Str),
      ps.get? j = some (t0, h0) → ps.get? (j + 1) = some (t1, h1) →
      v ≠ [] → v ≠ h0 →
      ReplayAudit.verifyHashChain (ReplayAudit.setPrev (ReplayAudit.mkChain ps) (j + 1) v) =
        (false, some t1) := by
  refine ⟨ReplayAudit.verifyHashChain_mkChain ps, ?_⟩
  intro j v t0 t1 h0 h1 hg0 hg1 hv hne
  cases j with
  | zero =>
      match ps, hg0, hg1 with
      | (ta, ha) :: (tb, hb) :: rest, hg0, hg1 =>
          simp only [List.get?] at hg0 hg1
          injection hg0 with hg0; injection hg1 with hg1
          obtain ⟨rfl, rfl⟩ := Prod.mk.injEq .. ▸ And.intro (congrArg Prod.fst hg0) (congrArg Prod.snd hg0)
          obtain ⟨rfl, rfl⟩ := Prod.mk.injEq .. ▸ And.intro (congrArg Prod.fst hg1) (congrArg Prod.snd hg1)
          simp only [ReplayAudit.verifyHashChain, ReplayAudit.mkChain, ReplayAudit.mkChainGo,
            ReplayAudit.setPrev, ReplayAudit.verifyChainGo]
          rw [if_neg (by rintro ⟨hx, -⟩; exact hx rfl)]
          rw [if_pos ⟨hv, hne⟩]
  | succ j' =>
      match ps with
      | (ta, ha) :: ps' =>
          simp only [List.get?] at hg0 hg1
          simp only [ReplayAudit.verifyHashChain, ReplayAudit.mkChain, ReplayAudit.mkChainGo,
            ReplayAudit.setPrev, ReplayAudit.verifyChainGo]
          rw [if_neg (by rintro ⟨hx, -⟩; exact hx rfl)]
          exact ReplayAudit.verifyChainGo_setPrev j' ps' ha v t0 t1 h0 h1 hg0 hg1 hv hne

/-- Witness for C3 at the concrete chain `[(0, "a"), (1, "b")]`, mutating the
second record's `prev_hash` to `"z"`. -/
theorem C3_chain_verifier_witness :
    ReplayAudit.verifyHashChain
        (ReplayAudit.mkChain [(0, strBytes "a"), (1, strBytes "b")]) = (true, none) ∧
    ReplayAudit.verifyHashChain
        (ReplayAudit.setPrev
          (ReplayAudit.mkChain [(0, strBytes "a"), (1, strBytes "b")]) 1 (strBytes "z")) =
      (false, some 1) :=
  ⟨(C3_chain_verifier [(0, strBytes "a"), (1, strBytes "b")]).1,
   (C3_chain_verifier [(0, strBytes "a"), (1, strBytes "b")]).2 0 (strBytes "z")
     0 1 (strBytes "a") (strBytes "b") rfl rfl (by decide) (by decide)⟩

/-- Counterexample for C3 as frozen: the claim demands `ok = false` after
mutating a non-genesis `prev_hash` to an arbitrary value, but mutating the
second record's `prev_hash` of the well-linked chain over
`[(0, "a"), (1, "b")]` to the (arbitrary, changed) empty string still yields
`ok = true`, because the scan skips empty `prev_hash` fields. -/
theorem C3_counterexample :
    ReplayAudit.verifyHashChain
        (ReplayAudit.setPrev
          (ReplayAudit.mkChain [(0, strBytes "a"), (1, strBytes "b")]) 1 []) = (true, none) ∧
    ([] : Str) ≠ strBytes "a" := by
  constructor
  · decide
  · decide

/-- Claim C5 (confirmed).  The builder's documented fixed convention at the
empty event sequence is the *empty trajectory* (the claim's permitted
alternative), and `verify_chain([])` returns `ok = true` with no break. -/
theorem C5_empty_input (seed : Nat) :
    DeterminismAuditor.replayDeterministically seed [] = [] ∧
    ReplayAudit.verifyHashChain [] = (true, none) :=
  ⟨rfl, rfl⟩

/-- Claim C2 (confirmed).  The trajectory builder is a pure function of
`(seed, events)`: two invocations yield the identical entry sequence, and the
code's own double-run self-check `verify_hash_stability` always reports
stability with no divergence index. -/
theorem C2_determinism (seed : Nat) (events : List Event) (ticks : List Nat) :
    DeterminismAuditor.replayDeterministically seed events =
      DeterminismAuditor.replayDeterministically seed events ∧
    ReplayAudit.verifyHashStability seed ticks = (true, none) := by
  refine ⟨rfl, ?_⟩
  unfold ReplayAudit.verifyHashStability
  rw [show ReplayAudit.stabilityRun seed ticks 1 = ReplayAudit.stabilityRun seed ticks 0 from rfl,
    ReplayAudit.firstDiff_self]

namespace DeterminismAuditor

/-- Folding the dict build over entries none of whose ticks equal `t` leaves
the accumulator unchanged. -/
lemma lookupFold_not_mem (t : Nat) :
    ∀ (l : List (Nat × Str)) (a : Option Str), t ∉ l.map Prod.fst →
      l.foldl (fun acc p => if p.1 = t then some p.2 else acc) a = a := by
  intro l
  induction l with
  | nil => intro a _; rfl
  | cons p rest ih =>
      intro a hmem
      simp only [List.map_cons, List.mem_cons, not_or] at hmem
      simp only [List.foldl_cons]
      rw [if_neg (fun hx => hmem.1 hx.symm)]
      exact ih a hmem.2

/-- With tick-unique entries, the dict lookup of an entry's tick returns that
entry's hash. -/
lemma lookupLast_of_nodup :
    ∀ (l : List (Nat × Str)), (l.map Prod.fst).Nodup → ∀ c ∈ l, lookupLast l c.1 = some c.2 := by
  intro l
  induction l with
  | nil => intro _ c hc; cases hc
  | cons p rest ih =>
      intro hnd c hc
      simp only [List.map_cons, List.nodup_cons] at hnd
      unfold lookupLast
      simp only [List.foldl_cons]
      rcases List.mem_cons.mp hc with rfl | htail
      · rw [if_pos rfl]
        exact lookupFold_not_mem c.1 rest (some c.2) hnd.1
      · have hne : p.1 ≠ c.1 := by
          intro hx
          exact hnd.1 (hx ▸ List.mem_map_of_mem Prod.fst htail)
        rw [if_neg hne]
        exact ih hnd.2 c htail

/-- When every checkpoint's tick looks up to exactly its own hash, no
divergence is collected. -/
lemma divergencesOf_eq_nil :
    ∀ (checkpoints : List (Nat × Str)) (replayHashes : List (Nat × Str)),
      (∀ c ∈ checkpoints, lookupLast replayHashes c.1 = some c.2) →
      divergencesOf checkpoints replayHashes = [] := by
  intro checkpoints
  induction checkpoints with
  | nil => intro _ _; rfl
  | cons c rest ih =>
      intro replayHashes h
      simp only [divergencesOf, h c (List.mem_cons_self c rest)]
      rw [if_neg (fun hx => hx rfl)]
      simp only [List.nil_append]
      exact ih replayHashes (fun d hd => h d (List.mem_cons_of_mem c hd))

/-- Every collected divergence's tick is the tick of some checkpoint of the
reference sequence. -/
lemma divergencesOf_tick_mem :
    ∀ (checkpoints replayHashes : List (Nat × Str)) (d : Divergence),
      d ∈ divergencesOf checkpoints replayHashes → d.tick ∈ checkpoints.map Prod.fst := by
  intro checkpoints
  induction checkpoints with
  | nil => intro _ d hd; cases hd
  | cons c rest ih =>
      intro replayHashes d hd
      simp only [divergencesOf] at hd
      rcases List.mem_append.mp hd with hhead | htail
      · have htick : d.tick = c.1 := by
          split at hhead
          · split at hhead
            · simp only [List.mem_singleton] at hhead
              rw [hhead]
            · cases hhead
          · simp only [List.mem_singleton] at hhead
            rw [hhead]
        simp only [List.map_cons, List.mem_cons]
        exact Or.inl htick
      · simp only [List.map_cons, List.mem_cons]
        exact Or.inr (ih replayHashes d htail)

/-- Appending a candidate entry whose tick is not `u` does not change the
dict lookup at `u`. -/
lemma lookupLast_append_single (cand : List (Nat × Str)) (t u : Nat) (h : Str) :
    lookupLast (cand ++ [(t, h)]) u = if t = u then some h else lookupLast cand u := by
  unfold lookupLast
  rw [List.foldl_append]
  rfl

/-- Appending a candidate entry whose tick does not occur in the reference
leaves the collected divergences unchanged. -/
lemma divergencesOf_append_irrelevant :
    ∀ (checkpoints cand : List (Nat × Str)) (t : Nat) (h : Str),
      t ∉ checkpoints.map Prod.fst →
      divergencesOf checkpoints (cand ++ [(t, h)]) = divergencesOf checkpoints cand := by
  intro checkpoints
  induction checkpoints with
  | nil => intro _ _ _ _; rfl
  | cons c rest ih =>
      intro cand t h hmem
      simp only [List.map_cons, List.mem_cons, not_or] at hmem
      simp only [divergencesOf, lookupLast_append_single]
      rw [if_neg hmem.1]
      rw [ih cand t h hmem.2]

end DeterminismAuditor

/-- Claim C4 (confirmed).  On reference `[(0,A),(1,B),(2,C)]` and candidate
`[(0,A),(1,X),(3,D)]` with pairwise distinct digests, the comparator emits
exactly a hash mismatch at tick 1 (expected `B`, actual `X`) followed by a
missing-tick record at tick 2 (actual `None`), in that order. -/
theorem C4_comparator_completeness (A B C X D : Str)
    (hdist : [A, B, C, X, D].Pairwise (· ≠ ·)) :
    DeterminismAuditor.divergencesOf [(0, A), (1, B), (2, C)] [(0, A), (1, X), (3, D)] =
      [⟨1, B, some X, .hashMismatch⟩, ⟨2, C, none, .missingHash⟩] := by
  have hBX : B ≠ X :=
    (List.pairwise_cons.mp (List.pairwise_cons.mp hdist).2).1 X (by simp)
  have l0 : DeterminismAuditor.lookupLast [(0, A), (1, X), (3, D)] 0 = some A := rfl
  have l1 : DeterminismAuditor.lookupLast [(0, A), (1, X), (3, D)] 1 = some X := rfl
  have l2 : DeterminismAuditor.lookupLast [(0, A), (1, X), (3, D)] 2 = none := rfl
  simp only [DeterminismAuditor.divergencesOf, l0, l1, l2]
  rw [if_neg (fun hx => hx rfl), if_pos hBX]
  rfl

/-- Witness for C4 at the concrete digests `"a", "b", "c", "x", "d"`. -/
theorem C4_comparator_completeness_witness :
    DeterminismAuditor.divergencesOf
        [(0, strBytes "a"), (1, strBytes "b"), (2, strBytes "c")]
        [(0, strBytes "a"), (1, strBytes "x"), (3, strBytes "d")] =
      [⟨1, strBytes "b", some (strBytes "x"), .hashMismatch⟩,
       ⟨2, strBytes "c", none, .missingHash⟩] :=
  C4_comparator_completeness (strBytes "a") (strBytes "b") (strBytes "c") (strBytes "x")
    (strBytes "d") (by decide)

/-- Claim C9 (corrected).  When the candidate equals the reference exactly
and — as the amendment adds — ticks are unique within the trajectory, the
comparator collects no divergence, the verification result is `True`, the
report status is `PASS` and the first-divergence tick is `None`.  Without
tick uniqueness the last-write-wins dict lookup can flag an earlier
duplicate, see `C9_counterexample`. -/
theorem C9_pass_idempotence (traj : List (Nat × Str))
    (hnd : (traj.map Prod.fst).Nodup) :
    DeterminismAuditor.divergencesOf traj traj = [] ∧
    DeterminismAuditor.verifyHashChain traj traj = (true, []) ∧
    DeterminismAuditor.statusOf (DeterminismAuditor.verifyHashChain traj traj).1 =
      strBytes "PASS" ∧
    DeterminismAuditor.firstDivergenceTick (DeterminismAuditor.verifyHashChain traj traj).2 =
      none := by
  have h0 : DeterminismAuditor.divergencesOf traj traj = [] :=
    DeterminismAuditor.divergencesOf_eq_nil traj traj
      (DeterminismAuditor.lookupLast_of_nodup traj hnd)
  have h1 : DeterminismAuditor.verifyHashChain traj traj = (true, []) := by
    unfold DeterminismAuditor.verifyHashChain
    rw [h0]
    rfl
  refine ⟨h0, h1, ?_, ?_⟩
  · rw [h1]
    rfl
  · rw [h1]
    rfl

/-- Witness for C9 at the concrete tick-unique trajectory
`[(0, "a"), (1, "b")]`. -/
theorem C9_pass_idempotence_witness :
    DeterminismAuditor.divergencesOf [(0, strBytes "a"), (1, strBytes "b")]
        [(0, strBytes "a"), (1, strBytes "b")] = [] ∧
    DeterminismAuditor.verifyHashChain [(0, strBytes "a"), (1, strBytes "b")]
        [(0, strBytes "a"), (1, strBytes "b")] = (true, []) ∧
    DeterminismAuditor.statusOf
        (DeterminismAuditor.verifyHashChain [(0, strBytes "a"), (1, strBytes "b")]
          [(0, strBytes "a"), (1, strBytes "b")]).1 = strBytes "PASS" ∧
    DeterminismAuditor.firstDivergenceTick
        (DeterminismAuditor.verifyHashChain [(0, strBytes "a"), (1, strBytes "b")]
          [(0, strBytes "a"), (1, strBytes "b")]).2 = none :=
  C9_pass_idempotence [(0, strBytes "a"), (1, strBytes "b")] (by decide)

/-- Counterexample for C9 as frozen: a candidate exactly equal to the
reference `[(0, "a"), (0, "b")]` (a duplicated tick with two digests) is
flagged with a hash mismatch, because the dict keeps only the last digest
for tick 0 — so equality alone does not force an empty divergence list. -/
theorem C9_counterexample :
    DeterminismAuditor.divergencesOf [(0, strBytes "a"), (0, strBytes "b")]
        [(0, strBytes "a"), (0, strBytes "b")] =
      [⟨0, strBytes "a", some (strBytes "b"), .hashMismatch⟩] ∧
    DeterminismAuditor.statusOf
        (DeterminismAuditor.verifyHashChain [(0, strBytes "a"), (0, strBytes "b")]
          [(0, strBytes "a"), (0, strBytes "b")]).1 = strBytes "FAIL" := by
  constructor
  · decide
  · decide

/-- Claim C10 (confirmed).  The comparator is reference-driven: every
divergence record's tick is a reference tick, appending a candidate entry
whose tick is outside the reference changes nothing, and an empty reference
always yields no divergences, verification `True`, status `PASS` and no
first-divergence tick, regardless of the candidate. -/
theorem C10_reference_driven (ref cand : List (Nat × Str)) (t : Nat) (h : Str)
    (hnot : t ∉ ref.map Prod.fst) :
    ((DeterminismAuditor.divergencesOf ref cand).all fun d =>
        decide (d.tick ∈ ref.map Prod.fst)) = true ∧
    DeterminismAuditor.divergencesOf ref (cand ++ [(t, h)]) =
      DeterminismAuditor.divergencesOf ref cand ∧
    DeterminismAuditor.divergencesOf [] cand = [] ∧
    DeterminismAuditor.verifyHashChain [] cand = (true, []) ∧
    DeterminismAuditor.statusOf (DeterminismAuditor.verifyHashChain [] cand).1 =
      strBytes "PASS" ∧
    DeterminismAuditor.firstDivergenceTick
      (DeterminismAuditor.verifyHashChain [] cand).2 = none := by
  refine ⟨?_, ?_, rfl, rfl, rfl, rfl⟩
  · rw [List.all_eq_true]
    intro d hd
    simpa using DeterminismAuditor.divergencesOf_tick_mem ref cand d hd
  · exact DeterminismAuditor.divergencesOf_append_irrelevant ref cand t h hnot

/-- Witness for C10 at reference `[(0, "a")]`, candidate `[(1, "b")]` and the
appended irrelevant entry `(5, "z")`. -/
theorem C10_reference_driven_witness :
    ((DeterminismAuditor.divergencesOf [(0, strBytes "a")] [(1, strBytes "b")]).all fun d =>
        decide (d.tick ∈ ([(0, strBytes "a")] : List (Nat × Str)).map Prod.fst)) = true ∧
    DeterminismAuditor.divergencesOf [(0, strBytes "a")]
        ([(1, strBytes "b")] ++ [(5, strBytes "z")]) =
      DeterminismAuditor.divergencesOf [(0, strBytes "a")] [(1, strBytes "b")] ∧
    DeterminismAuditor.divergencesOf [] [(1, strBytes "b")] = [] ∧
    DeterminismAuditor.verifyHashChain [] [(1, strBytes "b")] = (true, []) ∧
    DeterminismAuditor.statusOf
        (DeterminismAuditor.verifyHashChain [] [(1, strBytes "b")]).1 = strBytes "PASS" ∧
    DeterminismAuditor.firstDivergenceTick
        (DeterminismAuditor.verifyHashChain [] [(1, strBytes "b")]).2 = none :=
  C10_reference_driven [(0, strBytes "a")] [(1, strBytes "b")] 5 (strBytes "z") (by decide)

namespace DeterminismAuditor

/-- The builder's fold started from the RNG state of index `k` equals the
closed-form trajectory from index `k`. -/
lemma replayGo_rngAt (events : List Event) :
    ∀ (seed k : Nat), replayGo (rngAt seed k) events = trajFrom seed k events := by
  induction events with
  | nil => intro seed k; rfl
  | cons e rest ih =>
      intro seed k
      simp only [replayGo, trajFrom]
      exact congrArg (List.cons _) (ih seed (k + 1))

/-- The builder equals the closed-form trajectory: entry `i` hashes event `i`
together with `rngAt seed i`. -/
lemma replay_eq_trajFrom (seed : Nat) (events : List Event) :
    replayDeterministically seed events = trajFrom seed 0 events :=
  replayGo_rngAt events seed 0

/-- Entry `i` of the closed-form trajectory, as a map over entry `i` of the
event list. -/
lemma trajFrom_get? (events : List Event) :
    ∀ (seed k i : Nat),
      (trajFrom seed k events).get? i =
        (events.get? i).map fun e =>
          (e.tick, hexStr (sha256 (serialized e ++ pyRepr (rngAt seed (k + i))))) := by
  induction events with
  | nil => intro seed k i; cases i <;> rfl
  | cons e rest ih =>
      intro seed k i
      cases i with
      | zero => rfl
      | succ i' =>
          simp only [trajFrom, List.get?]
          rw [ih seed (k + 1) i', Nat.add_assoc, Nat.add_comm 1 i']

/-- The trajectory's prefix of length `i` only depends on the events' prefix
of length `i`. -/
lemma trajFrom_take :
    ∀ (i : Nat) (l1 l2 : List Event) (seed k : Nat), l1.take i = l2.take i →
      (trajFrom seed k l1).take i = (trajFrom seed k l2).take i := by
  intro i
  induction i with
  | zero => intro _ _ _ _ _; rfl
  | succ i' ih =>
      intro l1 l2 seed k hpre
      cases l1 with
      | nil =>
          cases l2 with
          | nil => rfl
          | cons b bs => simp at hpre
      | cons a as =>
          cases l2 with
          | nil => simp at hpre
          | cons b bs =>
              simp only [List.take_succ_cons] at hpre
              injection hpre with hab hpre'
              subst hab
              simp only [trajFrom, List.take_succ_cons]
              rw [ih as bs seed (k + 1) hpre']

/-- The emitted ticks are exactly the events' ticks, in encounter order. -/
lemma replayGo_map_fst : ∀ (events : List Event) (rng : Str),
    (replayGo rng events).map Prod.fst = events.map Event.tick := by
  intro events
  induction events with
  | nil => intro _; rfl
  | cons e rest ih =>
      intro rng
      simp only [replayGo, List.map_cons]
      rw [ih]

/-- The dict built from a trajectory maps tick `t` to the hash of the *last*
entry carrying `t`. -/
lemma lookupLast_last_occurrence (l1 l2 : List (Nat × Str)) (t : Nat) (h : Str)
    (hnot : t ∉ l2.map Prod.fst) :
    lookupLast (l1 ++ (t, h) :: l2) t = some h := by
  unfold lookupLast
  rw [List.foldl_append, List.foldl_cons, if_pos rfl]
  exact lookupFold_not_mem t l2 (some h) hnot

end DeterminismAuditor

/-- Claim C1 (corrected).  The builder computes entry `i` as
`(tick(e_i), H(tick(e_i) ∥ event_type(e_i) ∥ payload(e_i) ∥ rng_i))`, where
the chained fourth component is the auxiliary RNG state
(`rng_0 = H(str(seed))`, `rng_{i+1} = H(rng_i ∥ "tick")`) — **not** the
digest emitted for the previous event.  For the first event the chained
state coincides with `H(seed)` as the claim states; from the second event on
the claim's recurrence diverges, see `C1_counterexample`. -/
theorem C1_trajectory_recurrence (seed : Nat) (events : List Event) :
    DeterminismAuditor.replayDeterministically seed events =
      DeterminismAuditor.trajFrom seed 0 events :=
  DeterminismAuditor.replay_eq_trajFrom seed events

/-- Counterexample for C1 as frozen: with seed `0` and events
`[(0, "a", "b"), (1, "a", "b")]` the builder's output differs from the
claimed chain-the-previous-digest recurrence (`specTrajectory`, written from
the claim's words) at the second entry. -/
theorem C1_counterexample :
    DeterminismAuditor.replayDeterministically 0
        [⟨0, strBytes "a", strBytes "b"⟩, ⟨1, strBytes "a", strBytes "b"⟩] ≠
      DeterminismAuditor.specTrajectory 0
        [⟨0, strBytes "a", strBytes "b"⟩, ⟨1, strBytes "a", strBytes "b"⟩] := by
  decide

/-- Claim C6 (corrected).  The trajectory agrees with the original strictly
before the first position where the event sequences differ, and differs *at*
that position whenever the two events there carry different ticks (the RNG
state at a position depends only on the seed and the position).  When the
events at the first changed position have equal ticks and equal concatenated
serializations, the trajectories can be identical — the f-string
concatenation erases field boundaries, see `C6_counterexample` — so the
claim's unconditional divergence guarantee fails. -/
theorem C6_order_sensitivity (seed : Nat) (l1 l2 : List Event) (i : Nat) (e1 e2 : Event)
    (hpre : l1.take i = l2.take i)
    (h1 : l1.get? i = some e1) (h2 : l2.get? i = some e2)
    (htick : e1.tick ≠ e2.tick) :
    (DeterminismAuditor.replayDeterministically seed l1).take i =
      (DeterminismAuditor.replayDeterministically seed l2).take i ∧
    (DeterminismAuditor.replayDeterministically seed l1).get? i ≠
      (DeterminismAuditor.replayDeterministically seed l2).get? i := by
  rw [DeterminismAuditor.replay_eq_trajFrom, DeterminismAuditor.replay_eq_trajFrom]
  constructor
  · exact DeterminismAuditor.trajFrom_take i l1 l2 seed 0 hpre
  · rw [DeterminismAuditor.trajFrom_get?, DeterminismAuditor.trajFrom_get?, h1, h2]
    simp only [Option.map]
    intro heq
    injection heq with heq
    exact htick (congrArg Prod.fst heq)

/-- Witness for C6: two singleton event lists whose events differ at
position 0 by tick (`0` vs `1`); the trajectories differ at position 0. -/
theorem C6_order_sensitivity_witness :
    (DeterminismAuditor.replayDeterministically 0 [⟨0, strBytes "a", []⟩]).take 0 =
      (DeterminismAuditor.replayDeterministically 0 [⟨1, strBytes "a", []⟩]).take 0 ∧
    (DeterminismAuditor.replayDeterministically 0 [⟨0, strBytes "a", []⟩]).get? 0 ≠
      (DeterminismAuditor.replayDeterministically 0 [⟨1, strBytes "a", []⟩]).get? 0 :=
  C6_order_sensitivity 0 [⟨0, strBytes "a", []⟩] [⟨1, strBytes "a", []⟩] 0
    ⟨0, strBytes "a", []⟩ ⟨1, strBytes "a", []⟩ rfl rfl rfl (by decide)

/-- Counterexample for C6 as frozen: swapping the two *distinct* events
`(0, "ab", "c")` and `(0, "a", "bc")` changes their relative order but not
the trajectory: both serialize to `"0abc"`, so every hash input is
unchanged. -/
theorem C6_counterexample :
    (⟨0, strBytes "ab", strBytes "c"⟩ : Event) ≠ ⟨0, strBytes "a", strBytes "bc"⟩ ∧
    DeterminismAuditor.replayDeterministically 0
        [⟨0, strBytes "ab", strBytes "c"⟩, ⟨0, strBytes "a", strBytes "bc"⟩] =
      DeterminismAuditor.replayDeterministically 0
        [⟨0, strBytes "a", strBytes "bc"⟩, ⟨0, strBytes "ab", strBytes "c"⟩] := by
  exact ⟨by decide, rfl⟩

/-- Claim C7 (corrected).  Duplicate ticks are processed in encounter order
but the builder emits one entry *per event* — the emitted trajectory keeps
every duplicate, so its ticks are **not** unique (see `C7_counterexample`);
last-write-wins holds only at the comparator's tick-keyed dict, which maps a
tick to the hash of the last emitted entry carrying it. -/
theorem C7_duplicate_ticks (seed : Nat) (events : List Event)
    (l1 l2 : List (Nat × Str)) (t : Nat) (h : Str)
    (hnot : t ∉ l2.map Prod.fst) :
    (DeterminismAuditor.replayDeterministically seed events).map Prod.fst =
      events.map Event.tick ∧
    DeterminismAuditor.lookupLast (l1 ++ (t, h) :: l2) t = some h :=
  ⟨DeterminismAuditor.replayGo_map_fst events _,
   DeterminismAuditor.lookupLast_last_occurrence l1 l2 t h hnot⟩

/-- Witness for C7: a duplicated tick 0; the dict lookup returns the last
entry's hash `"y"`, not the earlier `"x"`. -/
theorem C7_duplicate_ticks_witness :
    (DeterminismAuditor.replayDeterministically 0
        [⟨0, strBytes "a", strBytes "b"⟩, ⟨0, strBytes "a", strBytes "c"⟩]).map Prod.fst =
      [0, 0] ∧
    DeterminismAuditor.lookupLast [(0, strBytes "x"), (0, strBytes "y")] 0 =
      some (strBytes "y") :=
  C7_duplicate_ticks 0 [⟨0, strBytes "a", strBytes "b"⟩, ⟨0, strBytes "a", strBytes "c"⟩]
    [(0, strBytes "x")] [] 0 (strBytes "y") (by decide)

/-- Counterexample for C7 as frozen: the emitted trajectory for two events
with the same tick contains *both* entries, so its tick sequence `[0, 0]` is
not duplicate-free as the claim asserts. -/
theorem C7_counterexample :
    ¬ ((DeterminismAuditor.replayDeterministically 0
        [⟨0, strBytes "a", strBytes "b"⟩, ⟨0, strBytes "a", strBytes "c"⟩]).map
          Prod.fst).Nodup := by
  decide

/-- Claim C8 (corrected).  The core performs no ordering check at all: it
folds the events exactly in the order given — one output entry per input
event, ticks taken verbatim — and has no failure path (ascending order is
guaranteed upstream by the loader's `ORDER BY tick ASC`).  It neither fails
fast on unsorted input nor re-sorts it, see `C8_counterexample`. -/
theorem C8_no_reorder_no_error (seed : Nat) (events : List Event) :
    (DeterminismAuditor.replayDeterministically seed events).map Prod.fst =
      events.map Event.tick ∧
    (DeterminismAuditor.replayDeterministically seed events).length = events.length := by
  refine ⟨DeterminismAuditor.replayGo_map_fst events _, ?_⟩
  have := congrArg List.length (DeterminismAuditor.replayGo_map_fst events (sha256 (natDec seed)))
  simpa using this

/-- Counterexample for C8 as frozen: on the unsorted input with ticks
`[5, 3]` the builder silently processes the records as given (emitting ticks
`[5, 3]`) instead of failing fast. -/
theorem C8_counterexample :
    (DeterminismAuditor.replayDeterministically 0
        [⟨5, strBytes "a", strBytes "b"⟩, ⟨3, strBytes "a", strBytes "b"⟩]).map Prod.fst =
      [5, 3] := by
  decide
